import Mathlib

/-!
Verification development for the remy emulator core (MOS 6502 CPU,
segmented virtual memory, iNES/NES 2.0 ROM decoder, NES system facade).

Machine integers are modelled as `Nat` with explicit `% 2^w` reductions
exactly where the Rust code performs wrapping machine arithmetic.
A Rust panic (`unimplemented!`, a panicking bounds failure) is modelled by
an `Option` layer: `none` means the operation diverges and returns nothing.
Fallible operations return `Except` values mirroring the error enums.
-/

set_option maxRecDepth 100000

namespace Remy

/-- Word size bound for the 64-bit address arithmetic of the memory bus. -/
def U64 : Nat := 2 ^ 64

/-- Wrapping 64-bit decrement, modelling the u64 expression `n - 1`
(which wraps around on underflow in release builds). -/
def u64sub1 (n : Nat) : Nat := (n + (U64 - 1)) % U64

/-- Error kinds of the memory bus (`mem::ErrorKind`).  Modelled from the
spec: `src/mem/mod.rs` is not part of the provided sources; §7 of the spec
gives the bus failure taxonomy OutOfBounds / MemoryNotReadable /
MemoryNotWritable. -/
inductive MemError where
  | OutOfBounds
  | MemoryNotReadable
  | MemoryNotWritable
deriving DecidableEq, Repr

/-- Error of virtual-memory management operations (`mem::virt::Error`). -/
inductive VirtError where
  | MemoryOverlap
deriving DecidableEq, Repr

/-- Decidable equality of `Except` results, for evaluating the model on
concrete inputs. -/
instance exceptDecEq {ε α : Type} [DecidableEq ε] [DecidableEq α] :
    DecidableEq (Except ε α) := fun x y => by
  cases x <;> cases y
  case error.error a b => exact decidable_of_iff (a = b) (by simp)
  case error.ok a b => exact Decidable.isFalse (by simp)
  case ok.error a b => exact Decidable.isFalse (by simp)
  case ok.ok a b => exact decidable_of_iff (a = b) (by simp)

/-- A memory value attachable to a `Virtual`: either a `Fixed` contiguous
buffer or a nested `Virtual` (the two `mem::Memory` implementations the
claims exercise). -/
inductive Mem where
  | fixed (data : List Nat)
  | virt (segs : List (Nat × Mem))

/-- `Memory::len`.  `Fixed` reports its buffer length (modelled from the
spec: `src/mem/fixed.rs` is not in the provided sources; §4.1 describes
Fixed as a contiguous buffer).  `Virtual::len` is `unimplemented!()` in
`src/mem/virt.rs`, modelled as `none` (the call panics and never returns). -/
def Mem.len : Mem → Option Nat
  | .fixed data => some data.length
  | .virt _ => none

/-- A segment of a `Virtual` memory: base address paired with the attached
memory (`Segment { base, memory }` in `src/mem/virt.rs`). -/
abbrev Seg := Nat × Mem

/-- Length of a segment's memory, defaulting to 0 when `len` diverges
(only used under hypotheses that make `len` defined). -/
def segLen (s : Seg) : Nat := (s.2.len).getD 0

/-- The check against the left neighbour in `Virtual::attach`
(`src/mem/virt.rs` lines 83-89): if a segment precedes the insert point,
fail with MemoryOverlap when `left.base + left.memory.len() - 1 >= base`.
The `len()` call may panic (`none`); the u64 arithmetic wraps. -/
def leftCheck (pre : List Seg) (nbase : Nat) : Option (Except VirtError Unit) :=
  match pre.getLast? with
  | none => some (Except.ok ())
  | some left =>
    match left.2.len with
    | none => none
    | some llen =>
      if nbase ≤ u64sub1 ((left.1 + llen) % U64) then some (Except.error VirtError.MemoryOverlap)
      else some (Except.ok ())

/-- The check against the right neighbour in `Virtual::attach`
(`src/mem/virt.rs` lines 91-97): if a segment follows the insert point,
fail with MemoryOverlap when `base + new_segment.memory.len() - 1 >= right.base`. -/
def rightCheck (post : List Seg) (nbase : Nat) (nmem : Mem) : Option (Except VirtError Unit) :=
  match post.head? with
  | none => some (Except.ok ())
  | some right =>
    match nmem.len with
    | none => none
    | some nlen =>
      if right.1 ≤ u64sub1 ((nbase + nlen) % U64) then some (Except.error VirtError.MemoryOverlap)
      else some (Except.ok ())

/-- `Virtual::attach` (`src/mem/virt.rs` lines 72-101).  The insert point is
the position of the first segment whose base exceeds the new base, realised
here as the takeWhile/dropWhile split at that position; the neighbour
checks run before the insertion, so an error leaves the list untouched. -/
def attach (segs : List Seg) (nbase : Nat) (nmem : Mem) :
    Option (Except VirtError (List Seg)) :=
  let pre := segs.takeWhile (fun l => decide (l.1 ≤ nbase))
  let post := segs.dropWhile (fun l => decide (l.1 ≤ nbase))
  match leftCheck pre nbase with
  | none => none
  | some (Except.error e) => some (Except.error e)
  | some (Except.ok _) =>
    match rightCheck post nbase nmem with
    | none => none
    | some (Except.error e) => some (Except.error e)
    | some (Except.ok _) => some (Except.ok (pre ++ (nbase, nmem) :: post))

/-- The `Virtual` memory itself: an ordered list of segments. -/
structure Virtual where
  segments : List Seg

/-- `Virtual::new`. -/
def Virtual.new : Virtual := ⟨[]⟩

/-- `Virtual::attach` viewed as a mutation on the receiver: on success the
segment list is replaced, on error the receiver is returned unchanged
(the source performs all checks before the `insert` call). -/
def Virtual.attachM (v : Virtual) (nbase : Nat) (nmem : Mem) :
    Option (Virtual × Option VirtError) :=
  match attach v.segments nbase nmem with
  | none => none
  | some (Except.ok l) => some (⟨l⟩, none)
  | some (Except.error e) => some (v, some e)

/-- Disjointness of two segments in list order: the first ends at or before
the second begins (`a.base + len(a) ≤ b.base`). -/
def segDisj (a b : Seg) : Prop := a.1 + segLen a ≤ b.1

/-- The `Virtual` invariant: segments pairwise disjoint in base order. -/
def Invariant (segs : List Seg) : Prop := segs.Pairwise segDisj

/-- Well-formedness of a segment for the disjointness analysis: its memory
has a defined length, at least one byte, and its range fits in 64 bits. -/
def SegOk (s : Seg) : Prop := ∃ l, s.2.len = some l ∧ 1 ≤ l ∧ s.1 + l < U64

/-- Intersection of the half-open ranges of two segments. -/
def Overlaps (a b : Seg) : Prop := a.1 < b.1 + segLen b ∧ b.1 < a.1 + segLen a

/-! ### Processor status flags (`src/hw/mos6502/cpu.rs`, `Flags`)

The flags register is a plain byte; the named-bit constants and the setter
algebra mirror the `Flags` impl. -/

/-- `Flags::SIGN()`. -/
def Flags.SIGN : Nat := 0x80
/-- `Flags::OVERFLOW()`. -/
def Flags.OVERFLOW : Nat := 0x40
/-- `Flags::RESERVED()`. -/
def Flags.RESERVED : Nat := 0x20
/-- `Flags::BREAK()`. -/
def Flags.BREAK : Nat := 0x10
/-- `Flags::BCD()`. -/
def Flags.BCD : Nat := 0x08
/-- `Flags::INTERRUPT()`. -/
def Flags.INTERRUPT : Nat := 0x04
/-- `Flags::ZERO()`. -/
def Flags.ZERO : Nat := 0x02
/-- `Flags::CARRY()`. -/
def Flags.CARRY : Nat := 0x01

/-- `Flags::intersects`: all of the given bits are set. -/
def Flags.intersects (f other : Nat) : Bool := f &&& other == other

/-- `Flags::carry`. -/
def Flags.carry (f : Nat) : Bool := Flags.intersects f Flags.CARRY

/-- `Flags::replace`: replaces all flags, always re-asserting RESERVED. -/
def Flags.replace (_f v : Nat) : Nat := v ||| Flags.RESERVED

/-- `Flags::set`: sets the given bits (through `replace`). -/
def Flags.set (f other : Nat) : Nat := Flags.replace f (f ||| other)

/-- Bitwise complement of a byte (`!flags` on a `u8`). -/
def not8 (v : Nat) : Nat := v ^^^ 0xFF

/-- `Flags::clear`: clears the given bits (through `replace`). -/
def Flags.clear (f other : Nat) : Nat := Flags.replace f (f &&& not8 other)

/-- `Flags::set_if`: clears then conditionally sets the given bits. -/
def Flags.set_if (f sel : Nat) (cond : Bool) : Nat :=
  let f1 := Flags.clear f sel
  if cond then Flags.set f1 sel else f1

/-- `Flags::set_sign_and_zero`: ZERO iff the value is zero, SIGN iff bit 7. -/
def Flags.set_sign_and_zero (f v : Nat) : Nat :=
  let f1 := Flags.set_if f Flags.ZERO (v == 0)
  Flags.set_if f1 Flags.SIGN (v &&& 0x80 != 0)

/-! ### Registers and CPU object (`src/hw/mos6502/cpu.rs`) -/

/-- The 8-bit register file (`Registers`). -/
structure Registers where
  a : Nat
  x : Nat
  y : Nat
  sp : Nat
deriving DecidableEq, Repr

/-- `Registers::new`: empty registers, stack pointer 0xFD. -/
def Registers.new : Registers := ⟨0, 0, 0, 0xFD⟩

/-- The MOS 6502 CPU state (`Mos6502`): register file, status flags,
program counter, BCD capability and cycle counter. -/
structure Mos6502 where
  registers : Registers
  flags : Nat
  pc : Nat
  bcd_enabled : Bool
  clock : Nat
deriving DecidableEq, Repr

/-- `Mos6502::new`: BCD-capable CPU, flags initialised to RESERVED alone.
The program counter starts at 0 (modelled from the spec:
`src/pc.rs` is not in the provided sources; the PC is a 16-bit logical
value set explicitly before execution). -/
def Mos6502.new : Mos6502 :=
  { registers := Registers.new, flags := Flags.RESERVED, pc := 0
    bcd_enabled := true, clock := 0 }

/-- `Mos6502::without_bcd`: BCD arithmetic unavailable regardless of the
BCD flag. -/
def Mos6502.without_bcd : Mos6502 :=
  { registers := Registers.new, flags := Flags.RESERVED, pc := 0
    bcd_enabled := false, clock := 0 }

/-- Register names (`RegisterName`). -/
inductive RegisterName where
  | A
  | X
  | Y
  | P
  | S
deriving DecidableEq, Repr

/-- `RegisterName::get`. -/
def RegisterName.get (r : RegisterName) (cpu : Mos6502) : Nat :=
  match r with
  | .A => cpu.registers.a
  | .X => cpu.registers.x
  | .Y => cpu.registers.y
  | .P => cpu.flags
  | .S => cpu.registers.sp

/-- `RegisterName::set`.  Writing P goes through `Flags::replace`. -/
def RegisterName.set (r : RegisterName) (cpu : Mos6502) (val : Nat) : Mos6502 :=
  match r with
  | .A => { cpu with registers := { cpu.registers with a := val } }
  | .X => { cpu with registers := { cpu.registers with x := val } }
  | .Y => { cpu with registers := { cpu.registers with y := val } }
  | .P => { cpu with flags := Flags.replace cpu.flags val }
  | .S => { cpu with registers := { cpu.registers with sp := val } }

/-- Base of the hardware stack page.  Modelled from the spec:
`src/hw/mos6502/mod.rs` (which defines `STACK_START`) is not in the
provided sources; §3 of the spec places the stack at page 0x0100-0x01FF. -/
def STACK_START : Nat := 0x0100

/-! ### The `mem::Memory` capability as a dictionary

Trait-generic functions (`push<M: Memory>`, operand resolution) are
embedded by passing an explicit dictionary of the trait methods over a
state type.  The outer `Option` models divergence (a panicking method). -/

/-- Dictionary of the `mem::Memory` trait methods over a state type. -/
structure MemOps (σ : Type) where
  len : σ → Option Nat
  get_u8 : σ → Nat → Option (Except MemError Nat)
  set_u8 : σ → Nat → Nat → Option (Except MemError σ)

/-- The `Fixed` memory implementation over its buffer.  Modelled from the
spec: `src/mem/fixed.rs` is not in the provided sources; §4.1 describes
Fixed as a contiguous buffer with bounds-checked access failing with
OutOfBounds. -/
def fixedOps : MemOps (List Nat) where
  len := fun d => some d.length
  get_u8 := fun d addr =>
    some (if addr < d.length then Except.ok (d.getD addr 0)
          else Except.error MemError.OutOfBounds)
  set_u8 := fun d addr v =>
    some (if addr < d.length then Except.ok (d.set addr v)
          else Except.error MemError.OutOfBounds)

/-- `Mos6502::push` (`src/hw/mos6502/cpu.rs` lines 172-177): write the value
at `sp + STACK_START`, then decrement `sp` (u8 arithmetic wraps
modulo 256). -/
def Mos6502.push {σ : Type} (ops : MemOps σ) (cpu : Mos6502) (mem : σ) (val : Nat) :
    Option (Except MemError (Mos6502 × σ)) :=
  let addr := cpu.registers.sp + STACK_START
  match ops.set_u8 mem addr val with
  | none => none
  | some (Except.error e) => some (Except.error e)
  | some (Except.ok m2) =>
    some (Except.ok
      ({ cpu with registers := { cpu.registers with sp := (cpu.registers.sp + 255) % 256 } }, m2))

/-- `Mos6502::pull` (`src/hw/mos6502/cpu.rs` lines 184-188): increment `sp`
(wrapping modulo 256), then read at `sp + STACK_START`. -/
def Mos6502.pull {σ : Type} (ops : MemOps σ) (cpu : Mos6502) (mem : σ) :
    Option (Except MemError (Mos6502 × Nat)) :=
  let sp2 := (cpu.registers.sp + 1) % 256
  let addr := sp2 + STACK_START
  match ops.get_u8 mem addr with
  | none => none
  | some (Except.error e) => some (Except.error e)
  | some (Except.ok v) =>
    some (Except.ok ({ cpu with registers := { cpu.registers with sp := sp2 } }, v))

/-! ### ADC with BCD support (`src/cpu/mos6502/instr/adc.rs`)

The source operates on `isize` values that are non-negative on every
reachable path (operand and accumulator are u8 casts, the carry-in is 0 or
1), so the embedding uses `Nat`.  The `panic!("bcd overflow!")` branch of
`uint_to_bcd` is modelled by `none`. -/

/-- `bcd_to_uint` (`adc.rs` lines 26-28). -/
def bcd_to_uint (bcd : Nat) : Nat := ((bcd &&& 0xF0) >>> 4) * 10 + (bcd &&& 0x0F)

/-- `uint_to_bcd` (`adc.rs` lines 30-43): subtract 100 once when above 99,
panic (`none`) when still above 99, then re-encode the digit pair. -/
def uint_to_bcd (int : Nat) : Option Nat :=
  let v := if int > 99 then int - 100 else int
  if v > 99 then none
  else some (((v / 10) <<< 4) ||| (v % 10))

/-- `adc::exec` (`adc.rs` lines 4-24) after the operand fetch: `n` is the
byte `op.get_u8(cpu)` returned (for `Operand::Immediate(n)` the fetch
returns `n` itself).  BCD arithmetic is used when the CPU was constructed
with BCD enabled and the BCD flag is set; CARRY is set from the decimal or
binary bound, then OVERFLOW, the masked result, and sign/zero flags are
applied in source order. -/
def adc_exec (cpu : Mos6502) (n : Nat) : Option Mos6502 :=
  let a := cpu.registers.a
  let c : Nat := if Flags.carry cpu.flags then 1 else 0
  let step : Option (Nat × Nat) :=
    if cpu.bcd_enabled && Flags.intersects cpu.flags Flags.BCD then
      let v := bcd_to_uint n + bcd_to_uint a + c
      let f1 := Flags.set_if cpu.flags Flags.CARRY (decide (v > 99))
      match uint_to_bcd v with
      | none => none
      | some t => some (t, f1)
    else
      let v := n + a + c
      some (v, Flags.set_if cpu.flags Flags.CARRY (decide (v > 255)))
  match step with
  | none => none
  | some (t, f1) =>
    let f2 := Flags.set_if f1 Flags.OVERFLOW (decide ((a &&& 0x80) ≠ (t &&& 0x80)))
    let a2 := t &&& 0xFF
    let f3 := Flags.set_sign_and_zero f2 a2
    some { cpu with registers := { cpu.registers with a := a2 }, flags := f3 }

/-! ### Operand model (`src/cpus/mos6502/operand.rs`) -/

/-- Errors of operand access (`operand::Error`). -/
inductive OperandError where
  | ErrorAccessingMemory (e : MemError)
  | ReadOnlyOperand
  | NonAddressOperand
deriving DecidableEq, Repr

/-- The operand variants (`Operand`). -/
inductive Operand where
  | Immediate (n : Nat)
  | Accumulator
  | Absolute (m : Nat)
  | Indexed (m : Nat) (r : RegisterName)
  | Indirect (m : Nat)
  | PreIndexedIndirect (m : Nat)
  | PostIndexedIndirect (m : Nat)
  | Offset (o : Int)
  | TwoByteImmediate (m : Nat)
deriving DecidableEq, Repr

/-- Little-endian 16-bit read derived from byte reads.  Modelled from the
spec: the `MemoryExt::get_u16::<LittleEndian>` helper lives in
`src/mem/mod.rs`, which is not in the provided sources; §3 of the spec
derives `get_u16_le` by composing two byte reads little-endian. -/
def MemOps.get_u16le {σ : Type} (ops : MemOps σ) (mem : σ) (addr : Nat) :
    Option (Except MemError Nat) :=
  match ops.get_u8 mem addr with
  | none => none
  | some (Except.error e) => some (Except.error e)
  | some (Except.ok lo) =>
    match ops.get_u8 mem (addr + 1) with
    | none => none
    | some (Except.error e) => some (Except.error e)
    | some (Except.ok hi) => some (Except.ok (lo ||| (hi <<< 8)))

/-- Lift a bus result into an operand result (the `From<mem::Error>`
conversion applied by `try!`). -/
def liftMem : Option (Except MemError Nat) → Option (Except OperandError Nat)
  | none => none
  | some (Except.error e) => some (Except.error (OperandError.ErrorAccessingMemory e))
  | some (Except.ok v) => some (Except.ok v)

/-- `Operand::get_addr` (`operand.rs` lines 87-96).  The pre-indexed
indirect pointer is fetched from `m + X` in 64-bit arithmetic - the
zero-page wrap of the hardware is NOT applied.  The u16 additions of
`Indexed` and `PostIndexedIndirect` wrap modulo 2^16. -/
def Operand.get_addr {σ : Type} (op : Operand) (cpu : Mos6502) (ops : MemOps σ) (mem : σ) :
    Option (Except OperandError Nat) :=
  match op with
  | .Absolute m => some (Except.ok m)
  | .Indirect m => liftMem (ops.get_u16le mem m)
  | .Indexed m r => some (Except.ok ((m + RegisterName.get r cpu) % 65536))
  | .PreIndexedIndirect m => liftMem (ops.get_u16le mem (m + cpu.registers.x))
  | .PostIndexedIndirect m =>
    match ops.get_u16le mem m with
    | none => none
    | some (Except.error e) => some (Except.error (OperandError.ErrorAccessingMemory e))
    | some (Except.ok p) => some (Except.ok ((p + cpu.registers.y) % 65536))
  | _ => some (Except.error OperandError.NonAddressOperand)

/-- `Operand::get_u8` (`operand.rs` lines 56-62): Immediate and Accumulator
bypass the bus; every other variant resolves `get_addr` then reads a byte. -/
def Operand.get_u8 {σ : Type} (op : Operand) (cpu : Mos6502) (ops : MemOps σ) (mem : σ) :
    Option (Except OperandError Nat) :=
  match op with
  | .Immediate n => some (Except.ok n)
  | .Accumulator => some (Except.ok cpu.registers.a)
  | _ =>
    match op.get_addr cpu ops mem with
    | none => none
    | some (Except.error e) => some (Except.error e)
    | some (Except.ok addr) => liftMem (ops.get_u8 mem addr)

/-! ### BRK in the `remy` tree (`src/remy/src/cpu/mos6502/instr/mod.rs`)

In this tree the CPU owns its memory (`cpu.mem`) and the flags live inside
the register file (`cpu.registers.get_flags()`).  The memory is modelled
as a total byte store `Nat → Nat`, which represents a state whose stack
page and vector region are mapped (the hypothesis of the claim). -/

/-- Pointwise update of a function-backed byte store. -/
def updateF (m : Nat → Nat) (a v : Nat) : Nat → Nat :=
  fun i => if i = a then v else m i

/-- Register file of the `remy`-tree CPU, flags included. -/
structure RRegisters where
  a : Nat
  x : Nat
  y : Nat
  sp : Nat
  flags : Nat

/-- The `remy`-tree CPU with its embedded memory. -/
structure RMos6502 where
  registers : RRegisters
  pc : Nat
  mem : Nat → Nat

/-- Stack push of the `remy`-tree CPU.  Modelled from the spec: that
tree's `cpu.rs` is not in the provided sources; §3 of the spec specifies
push as a write at `0x0100 + sp` followed by a wrapping decrement of sp. -/
def RMos6502.push (c : RMos6502) (val : Nat) : RMos6502 :=
  { c with
    mem := updateF c.mem (STACK_START + c.registers.sp) val
    registers := { c.registers with sp := (c.registers.sp + 255) % 256 } }

/-- `get_le_u16` of the `remy` tree.  Modelled from the spec: derived
little-endian 16-bit read composed from two byte reads. -/
def RMos6502.get_le_u16 (c : RMos6502) (addr : Nat) : Nat :=
  c.mem addr ||| (c.mem (addr + 1) <<< 8)

/-- The BRK arm of `Instruction::exec`
(`src/remy/src/cpu/mos6502/instr/mod.rs` lines 153-164): advance PC by 1,
push PC high then PC low, push the current flags with BREAK set (the
in-register flags are not modified), then jump to the little-endian vector
at 0xFFFE.  `pc.advance` is modelled from the spec as a wrapping 16-bit
addition. -/
def brk_exec (c : RMos6502) : RMos6502 :=
  let c1 : RMos6502 := { c with pc := (c.pc + 1) % 65536 }
  let pcv := c1.pc
  let c2 := c1.push ((pcv &&& 0xFF00) >>> 8)
  let c3 := c2.push (pcv &&& 0x00FF)
  let newFlags := c3.registers.flags ||| Flags.BREAK
  let c4 := c3.push newFlags
  { c4 with pc := c4.get_le_u16 0xFFFE }

/-! ### ROM decoder (`src/src/systems/nes/rom.rs`) -/

/-- ROM loading errors (`rom::Error`); the io payload is not modelled. -/
inductive RomError where
  | InvalidHeader
  | InvalidSignature
  | EndOfFileDuringBank
  | IoError
deriving DecidableEq, Repr

/-- `TvSystem`. -/
inductive TvSystem where
  | Unknown
  | NTSC
  | PAL
  | Dual
deriving DecidableEq, Repr

/-- `Version`. -/
inductive Version where
  | ArchaicINES
  | INES
  | NES2
deriving DecidableEq, Repr

/-- `RamSize`: battery-backed and total RAM byte counts (u16 fields). -/
structure RamSize where
  battery_backed : Nat
  total : Nat
deriving DecidableEq, Repr

/-- `RamSize::empty`. -/
def RamSize.empty : RamSize := ⟨0, 0⟩

/-- `get_full_size` (`rom.rs` lines 125-130): nibble 0 decodes to 0, any
other nibble `x` decodes to `2^(6+x)` as u16 arithmetic (which wraps
modulo 2^16 for x ≥ 10). -/
def get_full_size (inp : Nat) : Nat :=
  match inp with
  | 0 => 0
  | _ => (2 ^ (6 + inp)) % 65536

/-- `RamSize::from_header_byte` (`rom.rs` lines 107-123): empty for
ArchaicINES/INES; for NES2 the high nibble gives the battery-backed size
and the total adds the low-nibble size (u16 addition, wrapping). -/
def RamSize.from_header_byte (val : Nat) (version : Version) : RamSize :=
  match version with
  | .ArchaicINES | .INES => RamSize.empty
  | .NES2 =>
    let bat := get_full_size ((val &&& 0xF0) >>> 4)
    let non_bat := get_full_size (val &&& 0x0F)
    { battery_backed := bat, total := (bat + non_bat) % 65536 }

/-- `CartridgeInfo`. -/
structure CartridgeInfo where
  mapper : Nat
  submapper : Nat
  bus_conflicts : Bool
deriving DecidableEq, Repr

/-- `RomHeader`. -/
structure RomHeader where
  prg_rom_size : Nat
  chr_rom_size : Nat
  prg_ram_size : RamSize
  chr_ram_size : RamSize
  cartridge : CartridgeInfo
  version : Version
  vertical_arrangement : Bool
  four_screen_vram : Bool
  sram_battery_backed : Bool
  sram_present : Bool
  trainer_present : Bool
  vs_unisystem : Bool
  playchoice_10 : Bool
  tv_system : TvSystem
deriving DecidableEq, Repr

/-- `verify_signature` (`rom.rs` lines 337-343). -/
def verify_signature (sig : List Nat) : Bool :=
  sig.length == 4 &&
    sig.getD 0 0 == 0x4E &&
    sig.getD 1 0 == 0x45 &&
    sig.getD 2 0 == 0x53 &&
    sig.getD 3 0 == 0x1A

/-- `read_header` (`rom.rs` lines 252-335) on the 16 header bytes (a short
read yields InvalidHeader).  Version detection, bank counts, mapper and
submapper, TV system, RAM sizes and the flag bits follow the source; note
that the `header[7] & 0xF0` mapper nibble is only ORed in for `INES` (not
for `NES2`), and the NES2 submapper is computed as `(header[8] & 0xF0) << 4`
in u8 arithmetic (wrapping modulo 256). -/
def read_header (header : List Nat) : Except RomError RomHeader :=
  if header.length ≠ 16 then Except.error RomError.InvalidHeader
  else if !verify_signature (header.take 4) then Except.error RomError.InvalidSignature
  else
    let h := fun i => header.getD i 0
    let version : Version :=
      if h 7 &&& 0x0C == 0x08 then Version.NES2
      else if h 12 == 0 && h 13 == 0 && h 14 == 0 then Version.ArchaicINES
      else Version.INES
    let prg_size :=
      match version with
      | .ArchaicINES | .INES => h 4
      | .NES2 => h 4 ||| (h 9 &&& 0x0F)
    let chr_size :=
      match version with
      | .ArchaicINES | .INES => h 5
      | .NES2 => h 5 ||| ((h 9 &&& 0xF0) >>> 4)
    let mapper0 := (h 6 &&& 0xF0) >>> 4
    let mapper1 := if version = Version.INES then mapper0 ||| (h 7 &&& 0xF0) else mapper0
    let mapper2 :=
      if version = Version.NES2 then mapper1 ||| ((h 8 &&& 0x0F) <<< 8) else mapper1
    let submapper := if version = Version.NES2 then ((h 8 &&& 0xF0) <<< 4) % 256 else 0
    let tv : TvSystem :=
      match version with
      | .ArchaicINES => TvSystem.Unknown
      | .INES => if h 9 &&& 0x01 == 0 then TvSystem.NTSC else TvSystem.PAL
      | .NES2 =>
        if h 12 &&& 0x02 != 0 then TvSystem.Dual
        else if h 12 &&& 0x01 != 0 then TvSystem.PAL
        else TvSystem.NTSC
    Except.ok
      { prg_rom_size := prg_size
        chr_rom_size := chr_size
        prg_ram_size := RamSize.from_header_byte (h 10) version
        chr_ram_size := RamSize.from_header_byte (h 11) version
        cartridge := ⟨mapper2, submapper, h 10 &&& 0x20 != 0⟩
        version := version
        vertical_arrangement := h 6 &&& 0x01 == 0
        four_screen_vram := h 6 &&& 0x08 != 0
        sram_battery_backed := h 6 &&& 0x02 != 0
        sram_present := h 10 &&& 0x10 != 0
        trainer_present := h 6 &&& 0x04 != 0
        vs_unisystem := h 7 &&& 0x01 != 0
        playchoice_10 := h 7 &&& 0x02 != 0
        tv_system := tv }

/-- Mapper number of a decoded header, for stating evaluation facts. -/
def headerMapper (r : Except RomError RomHeader) : Option Nat :=
  match r with
  | Except.ok hd => some hd.cartridge.mapper
  | Except.error _ => none

/-- Submapper number of a decoded header. -/
def headerSubmapper (r : Except RomError RomHeader) : Option Nat :=
  match r with
  | Except.ok hd => some hd.cartridge.submapper
  | Except.error _ => none

/-- Format version of a decoded header. -/
def headerVersion (r : Except RomError RomHeader) : Option Version :=
  match r with
  | Except.ok hd => some hd.version
  | Except.error _ => none

/-! ### NES system facade (`src/remy/src/systems/nes/mod.rs`)

`Nes::step` first decodes and dispatches one CPU instruction and only then
checks whether a cartridge (the CHR/video-memory handle) is present.  The
decoder, executor dispatch and memory map live in files that are not in
the provided sources and are modelled from the spec below. -/

/-- Instruction decode errors (`instr::decoder::Error`).  Modelled from the
spec: the decoder source is not provided; §7 gives UnknownOpcode plus a
wrapped bus error. -/
inductive DecodeError where
  | UnknownOpcode (op : Nat)
  | MemoryError (e : MemError)
deriving DecidableEq, Repr

/-- Execution errors (`exec::Error`).  Modelled from the spec: the executor
error source is not provided; §7 says it wraps operand and bus errors. -/
inductive ExecError where
  | OperandError (e : OperandError)
  | MemoryError (e : MemError)
deriving DecidableEq, Repr

/-- System-level errors (`systems::nes::Error`). -/
inductive NesError where
  | InstructionDecodeError (e : DecodeError)
  | ExecutionError (e : ExecError)
  | NoCartridgeInserted
deriving DecidableEq, Repr

/-- The NES CPU memory map.  Modelled from the spec (§6): 0x0000-0x07FF RAM
mirrored up to 0x1FFF, 0x2000-0x3FFF PPU registers, 0x4000-0x401F I/O
registers, 0x8000-0xFFFF the PRG ROM window (unmapped while no cartridge
is loaded); everything else is unmapped. -/
structure MemMap where
  ram : Nat → Nat
  prg : Option (List Nat)

/-- Byte read through the NES memory map.  PPU/I-O register reads are out
of scope for this spec and modelled as 0; the PRG window fails with
OutOfBounds when no cartridge is loaded. -/
def MemMap.get_u8 (m : MemMap) (addr : Nat) : Except MemError Nat :=
  if addr < 0x2000 then Except.ok (m.ram (addr % 0x800))
  else if addr < 0x4000 then Except.ok 0
  else if addr < 0x4020 then Except.ok 0
  else if 0x8000 ≤ addr ∧ addr ≤ 0xFFFF then
    match m.prg with
    | some p => if addr - 0x8000 < p.length then Except.ok (p.getD (addr - 0x8000) 0)
                else Except.error MemError.OutOfBounds
    | none => Except.error MemError.OutOfBounds
  else Except.error MemError.OutOfBounds

/-- Byte write through the NES memory map.  RAM writes update the mirrored
cell; PPU/I-O register writes are accepted (their effect is out of scope);
the PRG window is read-only when mapped and unmapped otherwise. -/
def MemMap.set_u8 (m : MemMap) (addr val : Nat) : Except MemError MemMap :=
  if addr < 0x2000 then Except.ok { m with ram := updateF m.ram (addr % 0x800) val }
  else if addr < 0x4000 then Except.ok m
  else if addr < 0x4020 then Except.ok m
  else if 0x8000 ≤ addr ∧ addr ≤ 0xFFFF then
    match m.prg with
    | some _ => Except.error MemError.MemoryNotWritable
    | none => Except.error MemError.OutOfBounds
  else Except.error MemError.OutOfBounds

/-- The `mem::Memory` dictionary of the NES memory map (no method panics;
the window length is the 16-bit address space). -/
def memMapOps : MemOps MemMap where
  len := fun _ => some 0x10000
  get_u8 := fun m addr => some (m.get_u8 addr)
  set_u8 := fun m addr val => some (m.set_u8 addr val)

/-- Stack push through the NES memory map, with the executor's error
wrapping.  The `none` (panic) branch of the generic push is unreachable
for `memMapOps` and mapped to an OutOfBounds execution error. -/
def pushMM (cpu : Mos6502) (mem : MemMap) (val : Nat) : Except ExecError (Mos6502 × MemMap) :=
  match Mos6502.push memMapOps cpu mem val with
  | some (Except.ok r) => Except.ok r
  | some (Except.error e) => Except.error (ExecError.MemoryError e)
  | none => Except.error (ExecError.MemoryError MemError.OutOfBounds)

/-- The decoded instructions needed for the no-cartridge analysis.
Modelled from the spec: the decoder source is not provided; only the BRK
row (opcode 0x00, one byte) of the opcode table is included, every other
opcode byte decodes to UnknownOpcode. -/
inductive NInstr where
  | BRK
deriving DecidableEq, Repr

/-- One instruction decode at the program counter.  Modelled from the
spec (§4.3): read the opcode byte at PC, advance PC past the instruction;
a read failure wraps into the decode error. -/
def decode (mem : MemMap) (pc : Nat) : Except DecodeError (NInstr × Nat) :=
  match mem.get_u8 pc with
  | Except.error e => Except.error (DecodeError.MemoryError e)
  | Except.ok 0x00 => Except.ok (NInstr.BRK, (pc + 1) % 65536)
  | Except.ok op => Except.error (DecodeError.UnknownOpcode op)

/-- BRK execution against the NES memory map.  Modelled from the spec
(§4.4): increment PC by one, push PC high then low, push the flags with
BREAK set in the pushed copy only, then load PC from the little-endian
vector at 0xFFFE. -/
def exec_brk (cpu : Mos6502) (mem : MemMap) : Except ExecError (Mos6502 × MemMap) :=
  let pc1 := (cpu.pc + 1) % 65536
  let cpu1 : Mos6502 := { cpu with pc := pc1 }
  match pushMM cpu1 mem ((pc1 &&& 0xFF00) >>> 8) with
  | Except.error e => Except.error e
  | Except.ok (cpu2, mem2) =>
    match pushMM cpu2 mem2 (pc1 &&& 0x00FF) with
    | Except.error e => Except.error e
    | Except.ok (cpu3, mem3) =>
      match pushMM cpu3 mem3 (cpu3.flags ||| Flags.BREAK) with
      | Except.error e => Except.error e
      | Except.ok (cpu4, mem4) =>
        match mem4.get_u8 0xFFFE with
        | Except.error e => Except.error (ExecError.MemoryError e)
        | Except.ok lo =>
          match mem4.get_u8 0xFFFF with
          | Except.error e => Except.error (ExecError.MemoryError e)
          | Except.ok hi => Except.ok ({ cpu4 with pc := lo ||| (hi <<< 8) }, mem4)

/-- The decode-and-dispatch phase of `Nes::step` (its first two
statements), for the modelled opcode table. -/
def cpuPhase (cpu : Mos6502) (mem : MemMap) : Except NesError (Mos6502 × MemMap) :=
  match decode mem cpu.pc with
  | Except.error e => Except.error (NesError.InstructionDecodeError e)
  | Except.ok (i, pc2) =>
    let cpu1 : Mos6502 := { cpu with pc := pc2 }
    match i with
    | NInstr.BRK =>
      match exec_brk cpu1 mem with
      | Except.error e => Except.error (NesError.ExecutionError e)
      | Except.ok r => Except.ok r

/-- The NES system state (`Nes`): CPU, memory map, optional video-memory
handle (present iff a cartridge is loaded) and optional ROM header.  The
CHR contents and header metadata are irrelevant to the claims and carried
as unit values. -/
structure Nes where
  cpu : Mos6502
  mem : MemMap
  vmem : Option Unit
  rom_header : Option Unit

/-- `Nes::step` (`src/remy/src/systems/nes/mod.rs` lines 81-97),
parametrised by the decode-and-dispatch phase `f` (the concrete phase is
`cpuPhase`).  The instruction is decoded and dispatched FIRST; only then
is the video-memory handle consulted: when it is absent the call fails
with NoCartridgeInserted (the PPU advance on success is out of scope). -/
def Nes.step (f : Mos6502 → MemMap → Except NesError (Mos6502 × MemMap)) (s : Nes) :
    Except NesError Nes :=
  match f s.cpu s.mem with
  | Except.error e => Except.error e
  | Except.ok (cpu2, mem2) =>
    match s.vmem with
    | some _ => Except.ok { s with cpu := cpu2, mem := mem2 }
    | none => Except.error NesError.NoCartridgeInserted

/-- A freshly constructed console with no cartridge: `Nes::new` builds a
CPU without BCD, flags replaced with 0x24, zeroed RAM and an empty PRG
slot (the program counter starts at 0). -/
def freshNes : Nes :=
  { cpu := { Mos6502.without_bcd with flags := Flags.replace Mos6502.without_bcd.flags 0x24 }
    mem := { ram := fun _ => 0, prg := none }
    vmem := none
    rom_header := none }

/-- Error projection of a step result, for stating evaluation facts. -/
def stepError (r : Except NesError Nes) : Option NesError :=
  match r with
  | Except.error e => some e
  | Except.ok _ => none

/-! ## Helper lemmas on the flag algebra -/

/-- ORing a mask in guarantees the mask is contained afterwards. -/
theorem or_mask_and_mask (x m : Nat) : (x ||| m) &&& m = m := by
  apply Nat.eq_of_testBit_eq
  intro i
  simp only [Nat.testBit_and, Nat.testBit_or]
  cases hm : m.testBit i <;> simp

/-- `intersects` with a mask just ORed in is always true. -/
theorem intersects_or_mask (x m : Nat) : Flags.intersects (x ||| m) m = true := by
  simp [Flags.intersects, or_mask_and_mask]

/-- The CARRY flag is bit 0 of the flag byte. -/
theorem intersects_carry_eq_testBit (g : Nat) :
    Flags.intersects g Flags.CARRY = g.testBit 0 := by
  show (g &&& 1 == 1) = g.testBit 0
  rw [Nat.and_one_is_mod, Nat.testBit_zero]
  rcases Nat.mod_two_eq_zero_or_one g with h | h <;> simp [h]

/-- `set_if` on a selector without bit 0 preserves bit 0 of the flags. -/
theorem testBit0_set_if_other (f s : Nat) (c : Bool) (hs : s % 2 = 0) :
    (Flags.set_if f s c).testBit 0 = f.testBit 0 := by
  unfold Flags.set_if Flags.set Flags.clear Flags.replace not8 Flags.RESERVED
  cases c <;> simp [Nat.testBit_zero, hs] <;> omega

/-- `set_if` on the CARRY selector makes bit 0 equal the condition. -/
theorem testBit0_set_if_carry (f : Nat) (c : Bool) :
    (Flags.set_if f Flags.CARRY c).testBit 0 = c := by
  unfold Flags.set_if Flags.set Flags.clear Flags.replace not8 Flags.RESERVED Flags.CARRY
  cases c <;> simp [Nat.testBit_zero]

/-- `set_sign_and_zero` preserves bit 0 (ZERO is bit 1, SIGN is bit 7). -/
theorem testBit0_ssz (f v : Nat) : (Flags.set_sign_and_zero f v).testBit 0 = f.testBit 0 := by
  unfold Flags.set_sign_and_zero
  rw [testBit0_set_if_other _ _ _ (by decide), testBit0_set_if_other _ _ _ (by decide)]

/-- Claim C7: every write through the canonical setters (`replace`, `set`,
`clear`, `set_if`, `set_sign_and_zero`), and any status-register load
routed through them (writing P via `RegisterName::set` uses `replace`,
and PLP loads P through that register write), leaves the RESERVED bit
(0x20) set; the flags of a newly constructed CPU also have RESERVED set. -/
theorem reserved_always_set (f v : Nat) (cond : Bool) (cpu : Mos6502)
    (hf : f < 256) (hv : v < 256) :
    Flags.intersects (Flags.replace f v) Flags.RESERVED = true ∧
    Flags.intersects (Flags.set f v) Flags.RESERVED = true ∧
    Flags.intersects (Flags.clear f v) Flags.RESERVED = true ∧
    Flags.intersects (Flags.set_if f v cond) Flags.RESERVED = true ∧
    Flags.intersects (Flags.set_sign_and_zero f v) Flags.RESERVED = true ∧
    Flags.intersects ((RegisterName.set RegisterName.P cpu v).flags) Flags.RESERVED = true ∧
    Flags.intersects Mos6502.new.flags Flags.RESERVED = true ∧
    Flags.intersects Mos6502.without_bcd.flags Flags.RESERVED = true := by
  refine ⟨intersects_or_mask .., intersects_or_mask .., intersects_or_mask .., ?_, ?_,
    intersects_or_mask .., by decide, by decide⟩
  · unfold Flags.set_if Flags.set Flags.clear Flags.replace
    cases cond <;> exact intersects_or_mask ..
  · unfold Flags.set_sign_and_zero Flags.set_if Flags.set Flags.clear Flags.replace
    cases (v &&& 0x80 != 0) <;> exact intersects_or_mask ..

/-- Witness for C7 at concrete inputs. -/
theorem reserved_always_set_witness :
    (0 : Nat) < 256 ∧ (0x93 : Nat) < 256 ∧
    Flags.intersects (Flags.replace 0 0x93) Flags.RESERVED = true :=
  ⟨by decide, by decide, (reserved_always_set 0 0x93 true Mos6502.new (by decide) (by decide)).1⟩

/-! ## C1: ADC semantics (BCD and binary) -/

/-- `bcd_to_uint` in digit arithmetic, for byte inputs. -/
theorem bcd_to_uint_eq : ∀ a < 256, bcd_to_uint a = (a / 16) * 10 + a % 16 := by decide

/-- `uint_to_bcd` on inputs reachable from valid BCD additions (at most
199) returns the digit-pair encoding of the value modulo 100, and that
encoding is a fixed point of the 8-bit mask. -/
theorem uint_to_bcd_spec : ∀ v < 200,
    uint_to_bcd v = some ((((v % 100) / 10) <<< 4) ||| ((v % 100) % 10)) ∧
    (((((v % 100) / 10) <<< 4) ||| ((v % 100) % 10)) &&& 0xFF) =
      (((v % 100) / 10) <<< 4) ||| ((v % 100) % 10) := by decide

/-- The 8-bit mask is reduction modulo 256 (for the binary ADC range). -/
theorem and_mask255_of_lt : ∀ v < 512, v &&& 0xFF = v % 256 := by decide

/-- CARRY flag of the flags produced by the tail of `adc_exec` (OVERFLOW
then sign/zero updates preserve bit 0). -/
theorem adc_tail_carry (f1 : Nat) (b : Bool) (a2 : Nat) :
    Flags.intersects
      (Flags.set_sign_and_zero (Flags.set_if f1 Flags.OVERFLOW b) a2) Flags.CARRY =
      Flags.intersects f1 Flags.CARRY := by
  rw [intersects_carry_eq_testBit, intersects_carry_eq_testBit, testBit0_ssz,
    testBit0_set_if_other _ _ _ (by decide)]

/-- The CPU of scenario 1 of the spec: BCD-capable, BCD flag set,
accumulator 0x90. -/
def bcdCpu90 : Mos6502 :=
  { Mos6502.new with
    registers := { Registers.new with a := 0x90 }
    flags := Flags.set Mos6502.new.flags Flags.BCD }

/-- Claim C1: with BCD enabled and the BCD flag set, on valid BCD inputs
ADC stores `uint_to_bcd((bcd_to_uint(A) + bcd_to_uint(operand) + carry_in)
mod 100)` in A and sets CARRY iff the decimal sum exceeds 99; a CPU
constructed without BCD always performs binary addition (result masked to
8 bits, CARRY iff the sum exceeds 255) regardless of the BCD flag; and in
particular A=0x90 plus immediate 0x12 in BCD mode yields A=0x02, CARRY=1,
ZERO=0. -/
theorem adc_semantics (cpu : Mos6502) (n : Nat)
    (ha : cpu.registers.a < 256) (hn : n < 256) :
    (cpu.bcd_enabled = true →
     Flags.intersects cpu.flags Flags.BCD = true →
     cpu.registers.a / 16 ≤ 9 → cpu.registers.a % 16 ≤ 9 → n / 16 ≤ 9 → n % 16 ≤ 9 →
     ∃ cpu2, adc_exec cpu n = some cpu2 ∧
       some cpu2.registers.a =
         uint_to_bcd ((bcd_to_uint cpu.registers.a + bcd_to_uint n +
           (if Flags.carry cpu.flags then 1 else 0)) % 100) ∧
       Flags.intersects cpu2.flags Flags.CARRY =
         decide (bcd_to_uint cpu.registers.a + bcd_to_uint n +
           (if Flags.carry cpu.flags then 1 else 0) > 99)) ∧
    (cpu.bcd_enabled = false →
     ∃ cpu2, adc_exec cpu n = some cpu2 ∧
       cpu2.registers.a = (cpu.registers.a + n +
           (if Flags.carry cpu.flags then 1 else 0)) % 256 ∧
       Flags.intersects cpu2.flags Flags.CARRY =
         decide (cpu.registers.a + n + (if Flags.carry cpu.flags then 1 else 0) > 255)) ∧
    (Option.map (fun c => c.registers.a) (adc_exec bcdCpu90 0x12) = some 0x02 ∧
     Option.map (fun c => Flags.intersects c.flags Flags.CARRY) (adc_exec bcdCpu90 0x12) =
       some true ∧
     Option.map (fun c => Flags.intersects c.flags Flags.ZERO) (adc_exec bcdCpu90 0x12) =
       some false) := by
  refine ⟨?_, ?_, by decide, by decide, by decide⟩
  · intro hbcd hflag hA1 hA2 hn1 hn2
    have hcond : (cpu.bcd_enabled && Flags.intersects cpu.flags Flags.BCD) = true := by
      rw [hbcd, hflag]; rfl
    have hc : (if Flags.carry cpu.flags then (1 : Nat) else 0) ≤ 1 := by split <;> omega
    have hba : bcd_to_uint cpu.registers.a ≤ 99 := by
      rw [bcd_to_uint_eq _ ha]; omega
    have hbn : bcd_to_uint n ≤ 99 := by
      rw [bcd_to_uint_eq _ hn]; omega
    have hS : bcd_to_uint n + bcd_to_uint cpu.registers.a +
        (if Flags.carry cpu.flags then 1 else 0) < 200 := by omega
    obtain ⟨hu1, hu2⟩ := uint_to_bcd_spec _ hS
    have hexec : adc_exec cpu n = some
        { cpu with
          registers := { cpu.registers with a :=
            (((((bcd_to_uint n + bcd_to_uint cpu.registers.a +
              (if Flags.carry cpu.flags then 1 else 0)) % 100) / 10) <<< 4 |||
              ((bcd_to_uint n + bcd_to_uint cpu.registers.a +
              (if Flags.carry cpu.flags then 1 else 0)) % 100) % 10) &&& 0xFF) }
          flags := Flags.set_sign_and_zero
            (Flags.set_if
              (Flags.set_if cpu.flags Flags.CARRY
                (decide (bcd_to_uint n + bcd_to_uint cpu.registers.a +
                  (if Flags.carry cpu.flags then 1 else 0) > 99)))
              Flags.OVERFLOW
              (decide ((cpu.registers.a &&& 0x80) ≠
                ((((((bcd_to_uint n + bcd_to_uint cpu.registers.a +
                  (if Flags.carry cpu.flags then 1 else 0)) % 100) / 10) <<< 4 |||
                  ((bcd_to_uint n + bcd_to_uint cpu.registers.a +
                  (if Flags.carry cpu.flags then 1 else 0)) % 100) % 10)) &&& 0x80))))
            (((((bcd_to_uint n + bcd_to_uint cpu.registers.a +
              (if Flags.carry cpu.flags then 1 else 0)) % 100) / 10) <<< 4 |||
              ((bcd_to_uint n + bcd_to_uint cpu.registers.a +
              (if Flags.carry cpu.flags then 1 else 0)) % 100) % 10) &&& 0xFF) } := by
      simp only [adc_exec, hcond, if_true, hu1]
    refine ⟨_, hexec, ?_, ?_⟩
    · have hSlt : (bcd_to_uint cpu.registers.a + bcd_to_uint n +
          (if Flags.carry cpu.flags then 1 else 0)) % 100 < 200 := by omega
      obtain ⟨hv1, _⟩ := uint_to_bcd_spec _ hSlt
      rw [hv1, hu2]
      have heq1 : (bcd_to_uint n + bcd_to_uint cpu.registers.a +
          (if Flags.carry cpu.flags then 1 else 0)) % 100 =
          (bcd_to_uint cpu.registers.a + bcd_to_uint n +
          (if Flags.carry cpu.flags then 1 else 0)) % 100 % 100 := by omega
      rw [heq1]
    · rw [adc_tail_carry, intersects_carry_eq_testBit, testBit0_set_if_carry]
      exact decide_eq_decide.mpr (by omega)
  · intro hbin
    have hcond : (cpu.bcd_enabled && Flags.intersects cpu.flags Flags.BCD) = false := by
      rw [hbin]; rfl
    have hc : (if Flags.carry cpu.flags then (1 : Nat) else 0) ≤ 1 := by split <;> omega
    have hexec : adc_exec cpu n = some
        { cpu with
          registers := { cpu.registers with a :=
            (n + cpu.registers.a + (if Flags.carry cpu.flags then 1 else 0)) &&& 0xFF }
          flags := Flags.set_sign_and_zero
            (Flags.set_if
              (Flags.set_if cpu.flags Flags.CARRY
                (decide (n + cpu.registers.a +
                  (if Flags.carry cpu.flags then 1 else 0) > 255)))
              Flags.OVERFLOW
              (decide ((cpu.registers.a &&& 0x80) ≠
                ((n + cpu.registers.a +
                  (if Flags.carry cpu.flags then 1 else 0)) &&& 0x80))))
            ((n + cpu.registers.a + (if Flags.carry cpu.flags then 1 else 0)) &&& 0xFF) } := by
      simp only [adc_exec, hcond, Bool.false_eq_true, if_false]
    refine ⟨_, hexec, ?_, ?_⟩
    · have hlt : n + cpu.registers.a + (if Flags.carry cpu.flags then 1 else 0) < 512 := by
        omega
      show ((n + cpu.registers.a + (if Flags.carry cpu.flags then 1 else 0)) &&& 0xFF) =
        (cpu.registers.a + n + (if Flags.carry cpu.flags then 1 else 0)) % 256
      rw [and_mask255_of_lt _ hlt]
      omega
    · rw [adc_tail_carry, intersects_carry_eq_testBit, testBit0_set_if_carry]
      exact decide_eq_decide.mpr (by omega)

/-- Witness for C1 at the spec's concrete scenario. -/
theorem adc_semantics_witness :
    bcdCpu90.registers.a < 256 ∧ (0x12 : Nat) < 256 ∧
    Option.map (fun c => c.registers.a) (adc_exec bcdCpu90 0x12) = some 0x02 :=
  ⟨by decide, by decide, (adc_semantics bcdCpu90 0x12 (by decide) (by decide)).2.2.1⟩

/-! ## C4: stack pointer wrap-around -/

/-- Claim C4: the stack pointer wraps modulo 256: push writes at
`0x0100 + sp` and then decrements sp modulo 256 (a push with sp = 0
succeeds and leaves sp = 0xFF), pull increments sp modulo 256 and then
reads at `0x0100 + sp` (a pull with sp = 0xFF succeeds and leaves sp = 0);
on a memory whose stack page is writable, pushing past the bottom of the
stack page never fails. -/
theorem stack_pointer_wraps {σ : Type} (ops : MemOps σ) (cpu : Mos6502) (mem : σ) (val : Nat)
    (hsp : cpu.registers.sp < 256)
    (hw : ∀ a, a < 256 → ∀ w, ∃ m2, ops.set_u8 mem (0x100 + a) w = some (Except.ok m2))
    (hr : ∀ a, a < 256 → ∃ v, ops.get_u8 mem (0x100 + a) = some (Except.ok v)) :
    (∃ m2, Mos6502.push ops cpu mem val = some (Except.ok
        ({ cpu with registers := { cpu.registers with
            sp := (cpu.registers.sp + 255) % 256 } }, m2)) ∧
      ops.set_u8 mem (0x100 + cpu.registers.sp) val = some (Except.ok m2)) ∧
    (∃ v, Mos6502.pull ops cpu mem = some (Except.ok
        ({ cpu with registers := { cpu.registers with
            sp := (cpu.registers.sp + 1) % 256 } }, v)) ∧
      ops.get_u8 mem (0x100 + (cpu.registers.sp + 1) % 256) = some (Except.ok v)) ∧
    (cpu.registers.sp = 0 →
      ∃ m2, Mos6502.push ops cpu mem val = some (Except.ok
        ({ cpu with registers := { cpu.registers with sp := 0xFF } }, m2))) ∧
    (cpu.registers.sp = 0xFF →
      ∃ v, Mos6502.pull ops cpu mem = some (Except.ok
        ({ cpu with registers := { cpu.registers with sp := 0 } }, v))) := by
  obtain ⟨m2, hm2⟩ := hw cpu.registers.sp hsp val
  obtain ⟨v2, hv2⟩ := hr ((cpu.registers.sp + 1) % 256) (Nat.mod_lt _ (by omega))
  have haddr : cpu.registers.sp + STACK_START = 0x100 + cpu.registers.sp := by
    unfold STACK_START; omega
  have hpush : Mos6502.push ops cpu mem val = some (Except.ok
      ({ cpu with registers := { cpu.registers with
          sp := (cpu.registers.sp + 255) % 256 } }, m2)) := by
    unfold Mos6502.push
    simp only [haddr, hm2]
  have haddr2 : (cpu.registers.sp + 1) % 256 + STACK_START =
      0x100 + (cpu.registers.sp + 1) % 256 := by
    unfold STACK_START; omega
  have hpull : Mos6502.pull ops cpu mem = some (Except.ok
      ({ cpu with registers := { cpu.registers with
          sp := (cpu.registers.sp + 1) % 256 } }, v2)) := by
    unfold Mos6502.pull
    simp only [haddr2, hv2]
  refine ⟨⟨m2, hpush, hm2⟩, ⟨v2, hpull, hv2⟩, ?_, ?_⟩
  · intro h0
    refine ⟨m2, ?_⟩
    rw [hpush, h0]
  · intro hFF
    refine ⟨v2, ?_⟩
    rw [hpull, hFF]

/-- Witness for C4: sp = 0 on a fixed 512-byte memory attached over the
zero and stack pages. -/
theorem stack_pointer_wraps_witness :
    ({ Mos6502.new with registers := { Registers.new with sp := 0 } } :
        Mos6502).registers.sp < 256 ∧
    (∃ m2, Mos6502.push fixedOps
        { Mos6502.new with registers := { Registers.new with sp := 0 } }
        (List.replicate 512 0) 42 = some (Except.ok
        ({ { Mos6502.new with registers := { Registers.new with sp := 0 } } with
            registers := { ({ Mos6502.new with registers :=
              { Registers.new with sp := 0 } } : Mos6502).registers with
              sp := 0xFF } }, m2))) := by
  refine ⟨by decide, ?_⟩
  have h := stack_pointer_wraps fixedOps
    { Mos6502.new with registers := { Registers.new with sp := 0 } }
    (List.replicate 512 0) 42 (by decide)
    (fun a ha w => ⟨(List.replicate 512 0).set (0x100 + a) w, by
      simp only [fixedOps, List.length_replicate]
      rw [if_pos (by omega)]⟩)
    (fun a ha => ⟨(List.replicate 512 0).getD (0x100 + a) 0, by
      simp only [fixedOps, List.length_replicate]
      rw [if_pos (by omega)]⟩)
  exact h.2.2.1 rfl

/-! ## C3: BRK semantics -/

/-- High-byte extraction: masking with 0xFF00 then shifting right by 8 is
division by 256 on 16-bit values. -/
theorem and_ff00_shr8 (p : Nat) (hp : p < 65536) : (p &&& 0xFF00) >>> 8 = p / 256 := by
  have h256 : p / 256 = p >>> 8 := by
    rw [Nat.shiftRight_eq_div_pow]
  rw [h256]
  apply Nat.eq_of_testBit_eq
  intro i
  simp only [Nat.testBit_shiftRight, Nat.testBit_and]
  have hmask : (0xFF00 : Nat).testBit (8 + i) = decide (i < 8) := by
    have hrw : (0xFF00 : Nat) = (2 ^ 8 - 1) <<< 8 := by decide
    rw [hrw, Nat.testBit_shiftLeft, Nat.testBit_two_pow_sub_one]
    simp
  rw [hmask]
  by_cases hi8 : i < 8
  · simp [hi8]
  · have hhigh : p.testBit (8 + i) = false := Nat.testBit_lt_two_pow (by
      calc p < 65536 := hp
        _ = 2 ^ 16 := by norm_num
        _ ≤ 2 ^ (8 + i) := Nat.pow_le_pow_right (by omega) (by omega))
    simp [hhigh, hi8]

/-- Low-byte extraction: masking with 0xFF is reduction modulo 256. -/
theorem and_ff_mod (p : Nat) : p &&& 0xFF = p % 256 := by
  have hrw : (0xFF : Nat) = 2 ^ 8 - 1 := by norm_num
  rw [hrw, Nat.and_pow_two_sub_one_eq_mod]

/-- Recombining a little-endian byte pair: OR with a byte-shifted high
part is plain addition when the low part fits in a byte. -/
theorem lor_shl8_eq (lo hi : Nat) (hlo : lo < 256) : lo ||| (hi <<< 8) = lo + 256 * hi := by
  have hpow : (2 : Nat) ^ 8 = 256 := by norm_num
  have h := Nat.mul_add_lt_is_or (b := lo) (i := 8) (by omega) hi
  calc lo ||| hi <<< 8 = hi <<< 8 ||| lo := Nat.lor_comm ..
    _ = 2 ^ 8 * hi ||| lo := by rw [Nat.shiftLeft_eq, Nat.mul_comm]
    _ = 2 ^ 8 * hi + lo := h.symm
    _ = lo + 256 * hi := by rw [hpow]; omega

/-- Claim C3: BRK advances PC by 1, pushes the high byte of the
incremented PC, then its low byte, then a copy of P with BREAK set (the
in-register P is unchanged, so BREAK stays clear in it when it was clear),
and finally loads PC from the 16-bit little-endian value at 0xFFFE. -/
theorem brk_semantics (c : RMos6502)
    (hsp : c.registers.sp < 256) (hpc : c.pc < 65536)
    (hmem : ∀ a, c.mem a < 256) :
    (brk_exec c).mem (STACK_START + c.registers.sp) = ((c.pc + 1) % 65536) / 256 ∧
    (brk_exec c).mem (STACK_START + (c.registers.sp + 255) % 256) =
      ((c.pc + 1) % 65536) % 256 ∧
    (brk_exec c).mem (STACK_START + (c.registers.sp + 254) % 256) =
      (c.registers.flags ||| Flags.BREAK) ∧
    (brk_exec c).registers.flags = c.registers.flags ∧
    (Flags.intersects c.registers.flags Flags.BREAK = false →
      Flags.intersects (brk_exec c).registers.flags Flags.BREAK = false) ∧
    (brk_exec c).registers.sp = (c.registers.sp + 253) % 256 ∧
    (brk_exec c).pc = c.mem 0xFFFE + 256 * c.mem 0xFFFF := by
  have hpc1 : (c.pc + 1) % 65536 < 65536 := Nat.mod_lt _ (by omega)
  refine ⟨?_, ?_, ?_, ?_, ?_, ?_, ?_⟩
  · simp only [brk_exec, RMos6502.push, updateF, STACK_START]
    rw [if_true, if_neg (by omega), if_neg (by omega)]
    exact and_ff00_shr8 _ hpc1
  · simp only [brk_exec, RMos6502.push, updateF, STACK_START]
    rw [if_true, if_neg (by omega)]
    exact and_ff_mod _
  · simp only [brk_exec, RMos6502.push, updateF, STACK_START]
    rw [if_pos (by omega)]
  · simp only [brk_exec, RMos6502.push]
  · intro hclear
    simp only [brk_exec, RMos6502.push]
    exact hclear
  · simp only [brk_exec, RMos6502.push]
    omega
  · simp only [brk_exec, RMos6502.push, RMos6502.get_le_u16, updateF, STACK_START]
    rw [if_neg (by omega), if_neg (by omega), if_neg (by omega),
      if_neg (by omega), if_neg (by omega), if_neg (by omega)]
    exact lor_shl8_eq _ _ (hmem 0xFFFE)

/-- The memory of the spec's BRK scenario: vector 0xBEEF at 0xFFFE,
zero elsewhere. -/
def wmem : Nat → Nat := fun a =>
  if a = 0xFFFE then 0xEF else if a = 0xFFFF then 0xBE else 0

/-- The CPU of the spec's BRK scenario: PC = 0xABCD,
P = SIGN ||| OVERFLOW ||| RESERVED. -/
def wcpu : RMos6502 :=
  { registers := { a := 42, x := 0, y := 0, sp := 16
                   flags := Flags.SIGN ||| Flags.OVERFLOW ||| Flags.RESERVED }
    pc := 0xABCD
    mem := wmem }

/-- Witness for C3 at the spec's concrete scenario. -/
theorem brk_semantics_witness :
    wcpu.registers.sp < 256 ∧ wcpu.pc < 65536 ∧ (∀ a, wcpu.mem a < 256) ∧
    (brk_exec wcpu).pc = wcpu.mem 0xFFFE + 256 * wcpu.mem 0xFFFF := by
  have hm : ∀ a, wcpu.mem a < 256 := by
    intro a
    show wmem a < 256
    unfold wmem
    split
    · omega
    · split
      · omega
      · omega
  refine ⟨by decide, by decide, hm, ?_⟩
  exact (brk_semantics wcpu (by decide) (by decide) hm).2.2.2.2.2.2

/-! ## C5: pre-indexed indirect pointer fetch -/

/-- Memory refuting the zero-page wrap: the little-endian word at 0x0000
is 0x1234 but the word at 0x0100 is 0x5678. -/
def c5mem : List Nat :=
  ((((List.replicate 0x102 0).set 0 0x34).set 1 0x12).set 0x100 0x78).set 0x101 0x56

/-- CPU with X = 1 for the wrap refutation. -/
def c5cpu : Mos6502 :=
  { Mos6502.new with registers := { Registers.new with x := 1 } }

/-- Claim C5 counterexample: with X = 1 the operand
`PreIndexedIndirect(0xFF)` resolves its pointer at 0xFF + 1 = 0x0100, not
at (0xFF + 1) & 0xFF = 0x0000 as the claim states: the returned address is
the word stored at 0x0100 (0x5678), not the word stored at 0x0000 (0x1234). -/
theorem preindexed_wrap_counterexample :
    Operand.get_addr (Operand.PreIndexedIndirect 0xFF) c5cpu fixedOps c5mem =
      some (Except.ok 0x5678) ∧
    (0x5678 : Nat) ≠ 0x1234 := by
  refine ⟨by decide, by decide⟩

/-- Claim C5 (amended): resolving `PreIndexedIndirect(m)` fetches the
16-bit little-endian pointer from address `m + X` computed WITHOUT the
zero-page wrap (no masking with 0xFF), and `get_u8` returns the byte at
that pointer. -/
theorem preindexed_no_zero_page_wrap {σ : Type} (ops : MemOps σ) (cpu : Mos6502) (mem : σ)
    (m lo hi b : Nat)
    (h1 : ops.get_u8 mem (m + cpu.registers.x) = some (Except.ok lo))
    (h2 : ops.get_u8 mem (m + cpu.registers.x + 1) = some (Except.ok hi))
    (h3 : ops.get_u8 mem (lo ||| (hi <<< 8)) = some (Except.ok b)) :
    Operand.get_addr (Operand.PreIndexedIndirect m) cpu ops mem =
      some (Except.ok (lo ||| (hi <<< 8))) ∧
    Operand.get_u8 (Operand.PreIndexedIndirect m) cpu ops mem = some (Except.ok b) := by
  have haddr : Operand.get_addr (Operand.PreIndexedIndirect m) cpu ops mem =
      some (Except.ok (lo ||| (hi <<< 8))) := by
    simp only [Operand.get_addr, MemOps.get_u16le, h1, h2, liftMem]
  refine ⟨haddr, ?_⟩
  simp only [Operand.get_u8, haddr, h3, liftMem]

/-- Memory for the C5 witness: pointer 0x0005 stored at 0x0012, value 99
at 0x0005. -/
def c5wmem : List Nat :=
  (((List.replicate 32 0).set 0x12 5).set 0x13 0).set 5 99

/-- CPU with X = 2 for the C5 witness. -/
def c5wcpu : Mos6502 :=
  { Mos6502.new with registers := { Registers.new with x := 2 } }

/-- Witness for the amended C5 at a concrete input. -/
theorem preindexed_no_zero_page_wrap_witness :
    fixedOps.get_u8 c5wmem (0x10 + c5wcpu.registers.x) = some (Except.ok 5) ∧
    fixedOps.get_u8 c5wmem (0x10 + c5wcpu.registers.x + 1) = some (Except.ok 0) ∧
    fixedOps.get_u8 c5wmem (5 ||| (0 <<< 8)) = some (Except.ok 99) ∧
    Operand.get_u8 (Operand.PreIndexedIndirect 0x10) c5wcpu fixedOps c5wmem =
      some (Except.ok 99) :=
  ⟨by decide, by decide, by decide,
   (preindexed_no_zero_page_wrap fixedOps c5wcpu c5wmem 0x10 5 0 99
     (by decide) (by decide) (by decide)).2⟩

/-! ## C6: NES 2.0 mapper and submapper -/

/-- A valid NES 2.0 header with mapper nibbles 1 / 1 / 1 and submapper
nibble 2 (`header[6] = 0x10`, `header[7] = 0x18`, `header[8] = 0x21`). -/
def c6hdr : List Nat :=
  [0x4E, 0x45, 0x53, 0x1A, 2, 1, 0x10, 0x18, 0x21, 0, 0, 0, 0, 0, 0, 0]

/-- Claim C6: on an NES 2.0 header the decoder returns mapper
`(header[6]>>4) | ((header[8]&0x0F)<<8)` WITHOUT the `header[7]&0xF0`
nibble (0x101 here instead of the claimed 0x111), and submapper 0 (the
u8 expression `(header[8]&0xF0) << 4` discards the nibble) instead of the
claimed `header[8]>>4 = 2`: the code contradicts the documented NES 2.0
layout on both fields. -/
theorem nes2_mapper_submapper_code_values :
    headerVersion (read_header c6hdr) = some Version.NES2 ∧
    headerMapper (read_header c6hdr) = some 0x101 ∧
    headerSubmapper (read_header c6hdr) = some 0 ∧
    ((0x10 >>> 4) ||| (0x18 &&& 0xF0) ||| ((0x21 &&& 0x0F) <<< 8) : Nat) = 0x111 ∧
    (0x101 : Nat) ≠ 0x111 ∧
    ((0x21 : Nat) >>> 4) = 2 ∧
    (0 : Nat) ≠ 2 := by
  refine ⟨by decide, by decide, by decide, by decide, by decide, by decide, by decide⟩

/-! ## C9: RAM size decoding -/

/-- Claim C9 counterexample: for header byte 0xA0 (high nibble 10) the
code computes `2^16` in u16 arithmetic, which wraps to 0 - the claimed
exact value `64 << 10 = 65536` does not fit in 16 bits. -/
theorem ram_size_exact_counterexample :
    (RamSize.from_header_byte 0xA0 Version.NES2).battery_backed = 0 ∧
    ((64 : Nat) <<< (0xA0 >>> 4)) = 65536 ∧
    (0 : Nat) ≠ 65536 := by
  refine ⟨by decide, by decide, by decide⟩

/-- Claim C9 (amended): ArchaicINES and INES decode to empty RAM sizes;
for NES 2.0 with h = b>>4 and l = b&0x0F, battery_backed equals
`(64 << h) mod 2^16` (0 when h = 0) and total adds `(64 << l) mod 2^16`
(0 when l = 0) modulo 2^16 - the u16 arithmetic wraps instead of being
exact for nibbles 10 and above. -/
theorem ram_size_mod_decode (b : Nat) (hb : b < 256) :
    RamSize.from_header_byte b Version.ArchaicINES = RamSize.empty ∧
    RamSize.from_header_byte b Version.INES = RamSize.empty ∧
    (RamSize.from_header_byte b Version.NES2).battery_backed =
      (if b >>> 4 = 0 then 0 else (64 <<< (b >>> 4)) % 65536) ∧
    (RamSize.from_header_byte b Version.NES2).total =
      ((if b >>> 4 = 0 then 0 else (64 <<< (b >>> 4)) % 65536) +
       (if b &&& 0x0F = 0 then 0 else (64 <<< (b &&& 0x0F)) % 65536)) % 65536 := by
  have key : ∀ x < 256,
      (RamSize.from_header_byte x Version.NES2).battery_backed =
        (if x >>> 4 = 0 then 0 else (64 <<< (x >>> 4)) % 65536) ∧
      (RamSize.from_header_byte x Version.NES2).total =
        ((if x >>> 4 = 0 then 0 else (64 <<< (x >>> 4)) % 65536) +
         (if x &&& 0x0F = 0 then 0 else (64 <<< (x &&& 0x0F)) % 65536)) % 65536 := by
    decide
  exact ⟨rfl, rfl, (key b hb).1, (key b hb).2⟩

/-- Witness for the amended C9 at header byte 0x55. -/
theorem ram_size_mod_decode_witness :
    (0x55 : Nat) < 256 ∧
    (RamSize.from_header_byte 0x55 Version.NES2).battery_backed =
      (if (0x55 : Nat) >>> 4 = 0 then 0 else (64 <<< ((0x55 : Nat) >>> 4)) % 65536) :=
  ⟨by decide, (ram_size_mod_decode 0x55 (by decide)).2.2.1⟩

/-! ## C10: Virtual's len is unimplemented -/

/-- Claim C10 counterexample: a Virtual CAN be attached as a segment of
another (empty) Virtual - that attach performs no overlap check and hence
never calls the panicking `len()`; it returns Ok and inserts the segment. -/
theorem virtual_attach_empty_counterexample :
    Mem.len (Mem.virt []) = none ∧
    attach [] 0x1000 (Mem.virt []) = some (Except.ok [(0x1000, Mem.virt [])]) := by
  exact ⟨rfl, rfl⟩

/-- Claim C10 (amended): `Virtual::len` is unimplemented and never returns
(it panics), so any attach whose neighbour overlap check consults a
Virtual segment's length diverges: attaching at or above the base of an
existing Virtual segment panics through the left check, and attaching a
Virtual below an existing segment panics through the right check; only an
attach that performs no length check on a Virtual (as in the
counterexample) completes. -/
theorem virtual_len_unimplemented :
    (∀ segs : List Seg, Mem.len (Mem.virt segs) = none) ∧
    (∀ (vsegs : List Seg) (b nbase : Nat) (nmem : Mem), b ≤ nbase →
      attach [(b, Mem.virt vsegs)] nbase nmem = none) ∧
    (∀ (m : Mem) (b nbase : Nat) (w : List Seg), nbase < b →
      attach [(b, m)] nbase (Mem.virt w) = none) := by
  refine ⟨fun _ => rfl, ?_, ?_⟩
  · intro vsegs b nbase nmem hle
    have hdec : decide (b ≤ nbase) = true := by simpa using hle
    simp [attach, List.takeWhile, hdec, leftCheck, Mem.len]
  · intro m b nbase w hlt
    have hdec : decide (b ≤ nbase) = false := by
      simp only [decide_eq_false_iff_not]
      omega
    simp [attach, List.takeWhile, List.dropWhile, hdec, leftCheck, rightCheck, Mem.len]

/-- Witness for the amended C10 at concrete inputs. -/
theorem virtual_len_unimplemented_witness :
    Mem.len (Mem.virt []) = none ∧
    (0x1000 : Nat) ≤ 0x1000 ∧
    attach [(0x1000, Mem.virt [])] 0x1000 (Mem.fixed (List.replicate 10 0)) = none :=
  ⟨virtual_len_unimplemented.1 [], by decide,
   virtual_len_unimplemented.2.1 [] 0x1000 0x1000 (Mem.fixed (List.replicate 10 0))
     (by decide)⟩

/-! ## C8: step with no cartridge -/

/-- Claim C8 (amended): whenever no cartridge is loaded, every call to
`step` fails; the error is NoCartridgeInserted exactly when the decode and
dispatch of the current instruction succeed - a decode or execution
failure surfaces as that error instead, because the code checks the
cartridge only AFTER running the CPU instruction. -/
theorem step_without_cartridge_fails
    (f : Mos6502 → MemMap → Except NesError (Mos6502 × MemMap)) (s : Nes)
    (hv : s.vmem = none) :
    (∃ e, Nes.step f s = Except.error e) ∧
    (∀ cpu2 mem2, f s.cpu s.mem = Except.ok (cpu2, mem2) →
      Nes.step f s = Except.error NesError.NoCartridgeInserted) ∧
    (∀ e, f s.cpu s.mem = Except.error e → Nes.step f s = Except.error e) := by
  refine ⟨?_, ?_, ?_⟩
  · rcases hfe : f s.cpu s.mem with e | ⟨cpu2, mem2⟩
    · exact ⟨e, by unfold Nes.step; rw [hfe]⟩
    · exact ⟨NesError.NoCartridgeInserted, by unfold Nes.step; rw [hfe, hv]⟩
  · intro cpu2 mem2 hfe
    unfold Nes.step
    rw [hfe, hv]
  · intro e hfe
    unfold Nes.step
    rw [hfe]

/-- Witness for the amended C8 on the fresh console. -/
theorem step_without_cartridge_fails_witness :
    freshNes.vmem = none ∧
    (∃ e, Nes.step cpuPhase freshNes = Except.error e) :=
  ⟨rfl, (step_without_cartridge_fails cpuPhase freshNes rfl).1⟩

/-- Claim C8 counterexample: on the freshly constructed console (no
cartridge), `step` decodes opcode 0x00 (BRK) from the zeroed RAM,
dispatches it, and fails while reading the BRK vector at 0xFFFE from the
unmapped PRG window - the returned error is an ExecutionError, not
NoCartridgeInserted. -/
theorem step_error_not_no_cartridge :
    freshNes.vmem = none ∧
    stepError (Nes.step cpuPhase freshNes) =
      some (NesError.ExecutionError (ExecError.MemoryError MemError.OutOfBounds)) ∧
    some (NesError.ExecutionError (ExecError.MemoryError MemError.OutOfBounds)) ≠
      some NesError.NoCartridgeInserted := by
  refine ⟨rfl, by decide, by decide⟩

/-! ## C2: virtual memory attach keeps segments sorted and disjoint -/

/-- A defined, nonzero, bounded segment length in unpacked form. -/
theorem segOk_len {s : Seg} (h : SegOk s) :
    s.2.len = some (segLen s) ∧ 1 ≤ segLen s ∧ s.1 + segLen s < U64 := by
  obtain ⟨l, hl, h1, h2⟩ := h
  have hls : segLen s = l := by simp [segLen, hl]
  exact ⟨by rw [hl, hls], by omega, by omega⟩

/-- The wrapping `- 1` in the overlap checks, simplified under the 64-bit
bound: `n ≤ (base + len - 1)` is `n < base + len`. -/
theorem u64sub1_check (base llen n : Nat) (h1 : 1 ≤ llen) (h2 : base + llen < U64) :
    (n ≤ u64sub1 ((base + llen) % U64)) ↔ n < base + llen := by
  have hU : U64 = 18446744073709551616 := by norm_num [U64]
  unfold u64sub1
  rw [hU] at h2 ⊢
  omega

/-- The head of a `dropWhile` fails the predicate. -/
theorem head?_dropWhile_false {α : Type} (p : α → Bool) (l : List α) {x : α}
    (h : (l.dropWhile p).head? = some x) : p x = false := by
  have hw := List.head?_dropWhile_not p l
  rw [h] at hw
  exact hw

/-- In a pairwise-related list, every element is the last one or related
to it. -/
theorem pairwise_getLast_rel {α : Type} {R : α → α → Prop} :
    ∀ {l : List α} {z s : α}, l.Pairwise R → l.getLast? = some z → s ∈ l → s = z ∨ R s z := by
  intro l
  induction l with
  | nil => intro z s _ hz hs; cases hs
  | cons a t ih =>
    intro z s hp hz hs
    cases t with
    | nil =>
      have hz2 : a = z := by simpa using hz
      have hs2 : s = a := by simpa using hs
      left
      rw [hs2, hz2]
    | cons b t2 =>
      rw [List.getLast?_cons_cons] at hz
      rcases List.mem_cons.mp hs with rfl | hmem
      · right
        exact (List.pairwise_cons.mp hp).1 z (List.mem_of_getLast?_eq_some hz)
      · exact ih (List.pairwise_cons.mp hp).2 hz hmem

/-- In a pairwise-related list, every element is the head or related from
it. -/
theorem pairwise_head_rel {α : Type} {R : α → α → Prop} {l : List α} {h0 s : α}
    (hp : l.Pairwise R) (hh : l.head? = some h0) (hs : s ∈ l) : s = h0 ∨ R h0 s := by
  cases l with
  | nil => cases hh
  | cons a t =>
    have ha : a = h0 := by simpa using hh
    subst ha
    rcases List.mem_cons.mp hs with rfl | hmem
    · left; rfl
    · right; exact (List.pairwise_cons.mp hp).1 s hmem

/-- The left-neighbour check passes when there is no left neighbour. -/
theorem leftCheck_of_getLast_none {pre : List Seg} (nbase : Nat)
    (hz : pre.getLast? = none) : leftCheck pre nbase = some (Except.ok ()) := by
  simp [leftCheck, hz]

/-- Outcome of the left-neighbour check against a well-formed left
neighbour: ok when it ends at or before the new base, MemoryOverlap
otherwise. -/
theorem leftCheck_of_getLast_some {pre : List Seg} {nbase : Nat} {z : Seg}
    (hz : pre.getLast? = some z) (hok : SegOk z) :
    (z.1 + segLen z ≤ nbase ∧ leftCheck pre nbase = some (Except.ok ())) ∨
    (nbase < z.1 + segLen z ∧
      leftCheck pre nbase = some (Except.error VirtError.MemoryOverlap)) := by
  obtain ⟨hlen, h1, h2⟩ := segOk_len hok
  by_cases hc : nbase ≤ u64sub1 ((z.1 + segLen z) % U64)
  · right
    exact ⟨(u64sub1_check _ _ _ h1 h2).mp hc, by simp [leftCheck, hz, hlen, if_pos hc]⟩
  · left
    refine ⟨?_, by simp [leftCheck, hz, hlen, if_neg hc]⟩
    have := (u64sub1_check z.1 (segLen z) nbase h1 h2).not.mp hc
    omega

/-- The right-neighbour check passes when there is no right neighbour. -/
theorem rightCheck_of_head_none {post : List Seg} (nbase : Nat) (nmem : Mem)
    (hr : post.head? = none) : rightCheck post nbase nmem = some (Except.ok ()) := by
  simp [rightCheck, hr]

/-- Outcome of the right-neighbour check for a well-formed new segment:
ok when the new segment ends at or before the right neighbour's base,
MemoryOverlap otherwise. -/
theorem rightCheck_of_head_some {post : List Seg} {nbase : Nat} {nmem : Mem} {r : Seg}
    (hr : post.head? = some r) (hnew : SegOk (nbase, nmem)) :
    (nbase + segLen (nbase, nmem) ≤ r.1 ∧
      rightCheck post nbase nmem = some (Except.ok ())) ∨
    (r.1 < nbase + segLen (nbase, nmem) ∧
      rightCheck post nbase nmem = some (Except.error VirtError.MemoryOverlap)) := by
  obtain ⟨hlen, h1, h2⟩ := segOk_len hnew
  by_cases hc : r.1 ≤ u64sub1 ((nbase + segLen (nbase, nmem)) % U64)
  · right
    exact ⟨(u64sub1_check _ _ _ h1 h2).mp hc, by simp [rightCheck, hr, hlen, if_pos hc]⟩
  · left
    refine ⟨?_, by simp [rightCheck, hr, hlen, if_neg hc]⟩
    have := (u64sub1_check nbase (segLen (nbase, nmem)) r.1 h1 h2).not.mp hc
    omega

/-- Claim C2: the segments of a Virtual memory stay pairwise disjoint
(half-open ranges: earlier base + length is at most later base) and
sorted by base through `attach`; an attach that would overlap an existing
segment returns MemoryOverlap; a rejected attach leaves the segment list
unchanged; and a new Virtual trivially satisfies the invariant. -/
theorem virtual_attach_disjointness (segs : List Seg) (nbase : Nat) (nmem : Mem)
    (hwf : ∀ s ∈ segs, SegOk s) (hnew : SegOk (nbase, nmem)) (hinv : Invariant segs) :
    (∀ res, attach segs nbase nmem = some (Except.ok res) →
      Invariant res ∧ res.Pairwise (fun a b => a.1 ≤ b.1)) ∧
    ((∃ s ∈ segs, Overlaps s (nbase, nmem)) →
      attach segs nbase nmem = some (Except.error VirtError.MemoryOverlap)) ∧
    (∀ v2 e, Virtual.attachM ⟨segs⟩ nbase nmem = some (v2, some e) →
      v2 = ⟨segs⟩ ∧ e = VirtError.MemoryOverlap) ∧
    Invariant Virtual.new.segments := by
  have hsplit : segs.takeWhile (fun l => decide (l.1 ≤ nbase)) ++
      segs.dropWhile (fun l => decide (l.1 ≤ nbase)) = segs :=
    List.takeWhile_append_dropWhile _ segs
  have hwfPre : ∀ s ∈ segs.takeWhile (fun l => decide (l.1 ≤ nbase)), SegOk s :=
    fun s hs => hwf s ((List.takeWhile_sublist _).subset hs)
  have hpwPre : (segs.takeWhile (fun l => decide (l.1 ≤ nbase))).Pairwise segDisj :=
    hinv.sublist (List.takeWhile_sublist _)
  have hpwPost : (segs.dropWhile (fun l => decide (l.1 ≤ nbase))).Pairwise segDisj :=
    hinv.sublist (List.dropWhile_sublist _)
  have hcross : ∀ a ∈ segs.takeWhile (fun l => decide (l.1 ≤ nbase)),
      ∀ b ∈ segs.dropWhile (fun l => decide (l.1 ≤ nbase)), segDisj a b := by
    have hx := hsplit ▸ hinv
    exact (List.pairwise_append.mp hx).2.2
  have hpreLe : ∀ a ∈ segs.takeWhile (fun l => decide (l.1 ≤ nbase)), a.1 ≤ nbase := by
    intro a ha
    have hx := List.mem_takeWhile_imp ha
    simpa using hx
  obtain ⟨hnlen, hn1, hn2⟩ := segOk_len hnew
  -- outcome of the left-neighbour check, with the bound it certifies
  have hleft : (leftCheck (segs.takeWhile (fun l => decide (l.1 ≤ nbase))) nbase =
        some (Except.ok ()) ∧
      ∀ a ∈ segs.takeWhile (fun l => decide (l.1 ≤ nbase)), segDisj a (nbase, nmem)) ∨
      leftCheck (segs.takeWhile (fun l => decide (l.1 ≤ nbase))) nbase =
        some (Except.error VirtError.MemoryOverlap) := by
    cases hzz : (segs.takeWhile (fun l => decide (l.1 ≤ nbase))).getLast? with
    | none =>
      left
      refine ⟨leftCheck_of_getLast_none nbase hzz, ?_⟩
      intro a ha
      rw [List.getLast?_eq_none_iff.mp hzz] at ha
      cases ha
    | some z =>
      have hzwf := hwfPre z (List.mem_of_getLast?_eq_some hzz)
      rcases leftCheck_of_getLast_some hzz hzwf with ⟨hzle, hL⟩ | ⟨_, hL⟩
      · left
        refine ⟨hL, ?_⟩
        intro a ha
        rcases pairwise_getLast_rel hpwPre hzz ha with rfl | hrel
        · exact hzle
        · have hz0 : z.1 ≤ nbase := hpreLe z (List.mem_of_getLast?_eq_some hzz)
          unfold segDisj at hrel ⊢
          omega
      · right
        exact hL
  -- outcome of the right-neighbour check, with the bound it certifies
  have hright : (rightCheck (segs.dropWhile (fun l => decide (l.1 ≤ nbase))) nbase nmem =
        some (Except.ok ()) ∧
      ∀ b ∈ segs.dropWhile (fun l => decide (l.1 ≤ nbase)), segDisj (nbase, nmem) b) ∨
      rightCheck (segs.dropWhile (fun l => decide (l.1 ≤ nbase))) nbase nmem =
        some (Except.error VirtError.MemoryOverlap) := by
    cases hrr : (segs.dropWhile (fun l => decide (l.1 ≤ nbase))).head? with
    | none =>
      left
      refine ⟨rightCheck_of_head_none nbase nmem hrr, ?_⟩
      intro b hb
      rw [List.head?_eq_none_iff.mp hrr] at hb
      cases hb
    | some r0 =>
      have hr0mem : r0 ∈ segs.dropWhile (fun l => decide (l.1 ≤ nbase)) := by
        rcases List.head?_eq_some_iff.mp hrr with ⟨ys, hys⟩
        rw [hys]
        exact List.mem_cons_self ..
      rcases rightCheck_of_head_some hrr hnew with ⟨hble, hR⟩ | ⟨_, hR⟩
      · left
        refine ⟨hR, ?_⟩
        intro b hb
        rcases pairwise_head_rel hpwPost hrr hb with rfl | hrel
        · exact hble
        · obtain ⟨_, hr1, _⟩ := segOk_len (hwf r0 ((List.dropWhile_sublist _).subset hr0mem))
          unfold segDisj at hrel ⊢
          omega
      · right
        exact hR
  rcases hleft with ⟨hL, hallPre⟩ | hL
  · rcases hright with ⟨hR, hallPost⟩ | hR
    · -- both checks pass: attach succeeds with the inserted list
      have hatt : attach segs nbase nmem = some (Except.ok
          (segs.takeWhile (fun l => decide (l.1 ≤ nbase)) ++ (nbase, nmem) ::
           segs.dropWhile (fun l => decide (l.1 ≤ nbase)))) := by
        simp only [attach, hL, hR]
      refine ⟨?_, ?_, ?_, List.Pairwise.nil⟩
      · intro res hres
        rw [hatt] at hres
        cases hres
        have hpw : (segs.takeWhile (fun l => decide (l.1 ≤ nbase)) ++ (nbase, nmem) ::
            segs.dropWhile (fun l => decide (l.1 ≤ nbase))).Pairwise segDisj := by
          rw [List.pairwise_append]
          refine ⟨hpwPre, ?_, ?_⟩
          · rw [List.pairwise_cons]
            exact ⟨hallPost, hpwPost⟩
          · intro a ha b hb
            rcases List.mem_cons.mp hb with rfl | hb2
            · exact hallPre a ha
            · exact hcross a ha b hb2
        refine ⟨hpw, ?_⟩
        exact hpw.imp (fun hab => by unfold segDisj at hab; omega)
      · -- no existing segment can overlap when both checks passed
        intro ⟨s, hs, hov⟩
        exfalso
        rw [← hsplit] at hs
        rcases List.mem_append.mp hs with hsp | hsp
        · have hd := hallPre s hsp
          unfold segDisj at hd
          unfold Overlaps at hov
          omega
        · have hd := hallPost s hsp
          unfold segDisj at hd
          unfold Overlaps at hov
          omega
      · intro v2 e hv2
        unfold Virtual.attachM at hv2
        rw [show (Virtual.mk segs).segments = segs from rfl, hatt] at hv2
        cases hv2
    · -- right check fails: MemoryOverlap, list untouched
      have hatt : attach segs nbase nmem =
          some (Except.error VirtError.MemoryOverlap) := by
        simp only [attach, hL, hR]
      refine ⟨?_, fun _ => hatt, ?_, List.Pairwise.nil⟩
      · intro res hres
        rw [hatt] at hres
        cases hres
      · intro v2 e hv2
        unfold Virtual.attachM at hv2
        rw [show (Virtual.mk segs).segments = segs from rfl, hatt] at hv2
        cases hv2
        exact ⟨rfl, rfl⟩
  · -- left check fails: MemoryOverlap, list untouched
    have hatt : attach segs nbase nmem =
        some (Except.error VirtError.MemoryOverlap) := by
      simp only [attach, hL]
    refine ⟨?_, fun _ => hatt, ?_, List.Pairwise.nil⟩
    · intro res hres
      rw [hatt] at hres
      cases hres
    · intro v2 e hv2
      unfold Virtual.attachM at hv2
      rw [show (Virtual.mk segs).segments = segs from rfl, hatt] at hv2
      cases hv2
      exact ⟨rfl, rfl⟩

/-- Witness for C2 at the spec's attach-conflict scenario: a 10-byte
segment at 0x1000, then attaching 10 bytes at 0x1005 is rejected with
MemoryOverlap. -/
theorem virtual_attach_disjointness_witness :
    SegOk (0x1000, Mem.fixed (List.replicate 10 0)) ∧
    SegOk (0x1005, Mem.fixed (List.replicate 10 0)) ∧
    Invariant [(0x1000, Mem.fixed (List.replicate 10 0))] ∧
    attach [(0x1000, Mem.fixed (List.replicate 10 0))] 0x1005
      (Mem.fixed (List.replicate 10 0)) =
      some (Except.error VirtError.MemoryOverlap) := by
  have hok1 : SegOk (0x1000, Mem.fixed (List.replicate 10 0)) :=
    ⟨10, rfl, by omega, by norm_num [U64]⟩
  have hok2 : SegOk (0x1005, Mem.fixed (List.replicate 10 0)) :=
    ⟨10, rfl, by omega, by norm_num [U64]⟩
  have hinv : Invariant [(0x1000, Mem.fixed (List.replicate 10 0))] := by
    unfold Invariant
    exact List.pairwise_singleton ..
  refine ⟨hok1, hok2, hinv, ?_⟩
  refine (virtual_attach_disjointness [(0x1000, Mem.fixed (List.replicate 10 0))] 0x1005
    (Mem.fixed (List.replicate 10 0)) ?_ hok2 hinv).2.1 ?_
  · intro s hs
    rcases List.mem_singleton.mp hs with rfl
    exact hok1
  · refine ⟨(0x1000, Mem.fixed (List.replicate 10 0)), List.mem_singleton.mpr rfl, ?_, ?_⟩
    · show (0x1000 : Nat) < 0x1005 + segLen (0x1005, Mem.fixed (List.replicate 10 0))
      simp [segLen, Mem.len]
    · show (0x1005 : Nat) < 0x1000 + segLen (0x1000, Mem.fixed (List.replicate 10 0))
      simp [segLen, Mem.len]

end Remy
